import Mathlib

/-!
Shallow embedding of `c3voc_calendar.py`: a tool that loads a calendar of
events (from a local YAML file or a remote JSON feed), normalizes it,
deduplicates resources, and exports a Gantt chart for the current year.

Python values are modelled as follows: `datetime.date` becomes a `Date`
record of numerals compared lexicographically; strings stay `String`;
Python dicts (insertion-ordered, overwriting assignment) become association
lists with an overwriting `set`; exceptions become `Option`/explicit failure
flags; the outcomes of the out-of-scope collaborators (file system, YAML
parser, HTTP fetch, JSON decoder) are passed in as explicit inputs.
-/

set_option autoImplicit false

namespace C3VOC

/-- Model of Python `datetime.date`: a year/month/day triple. -/
structure Date where
  year : Nat
  month : Nat
  day : Nat
deriving DecidableEq, Repr

/-- Python `date` comparison `a <= b`: lexicographic on (year, month, day). -/
def Date.leb (a b : Date) : Bool :=
  a.year < b.year ||
    (a.year == b.year &&
      (a.month < b.month || (a.month == b.month && a.day ≤ b.day)))

/-- Python `date.today().replace(month=1).replace(day=1)` as computed in
`load_json_url` (lines 68-70): January 1 of the current year. -/
def firstOfTheYear (today : Date) : Date :=
  let m := { today with month := 1 }
  { m with day := 1 }

/-- `True if year is a leap year, else False` — Python `calendar.isleap`
rule used by `datetime.date`'s proleptic Gregorian calendar. -/
def isLeapYear (y : Nat) : Bool :=
  y % 4 == 0 && (y % 100 != 0 || y % 400 == 0)

/-- Days in a month of the proleptic Gregorian calendar
(as in CPython `datetime._days_in_month`). -/
def daysInMonth (y m : Nat) : Nat :=
  if m == 2 then (if isLeapYear y then 29 else 28)
  else if m == 4 || m == 6 || m == 9 || m == 11 then 30
  else 31

/-- Days in the given year before the first day of month `m`
(as in CPython `datetime._days_before_month`). -/
def daysBeforeMonth (y m : Nat) : Nat :=
  (List.range (m - 1)).foldl (fun acc i => acc + daysInMonth y (i + 1)) 0

/-- Days before January 1 of year `y`
(as in CPython `datetime._days_before_year`). -/
def daysBeforeYear (y : Nat) : Nat :=
  365 * (y - 1) + (y - 1) / 4 - (y - 1) / 100 + (y - 1) / 400

/-- Python `date.toordinal()`: proleptic Gregorian ordinal of the date. -/
def Date.toOrdinal (d : Date) : Nat :=
  daysBeforeYear d.year + daysBeforeMonth d.year d.month + d.day

/-- Python `(a - b).days` for two `date`s: difference of their ordinals. -/
def dateSubDays (a b : Date) : Int :=
  (a.toOrdinal : Int) - (b.toOrdinal : Int)

/-! ## ColourWheel (lines 11-36)

`ColourWheel` holds `iter(self.colours)`; `__next__` takes the next element
and, when the iterator is exhausted (`StopIteration` caught by the bare
`except:`), restarts with a fresh iterator and returns its first element.
The iterator state is the index of the next element to yield. -/

/-- The `colours` palette of `ColourWheel` (lines 17-19). -/
def colours : List String :=
  ["#28C3AB", "#28C3A9", "#386FC8", "#FFB534", "#FF8634", "#78E1D0",
   "#83A8E3", "#FFD488", "#FFB888", "#4AD1BA", "#5888D4", "#FFC35B",
   "#FF9D5B", "#04B799", "#1556BC", "#FFA506", "#FF6B06", "#008A73",
   "#DA8B00", "#DA5800"]

/-- State of a `ColourWheel` instance: the position of `self.list_iterator`
in `colours`.  `__init__` sets it to `0`. -/
structure ColourWheel where
  idx : Nat
deriving DecidableEq, Repr

/-- `ColourWheel.__init__`: `self.list_iterator = iter(self.colours)`. -/
def ColourWheel.init : ColourWheel := ⟨0⟩

/-- `ColourWheel.__next__` (lines 27-36): yield the next palette entry, or
restart from the beginning when the iterator is exhausted.  Returns the
colour together with the successor state. -/
def ColourWheel.next (w : ColourWheel) : String × ColourWheel :=
  if w.idx < colours.length then
    (colours.getD w.idx "", ⟨w.idx + 1⟩)
  else
    (colours.getD 0 "", ⟨1⟩)

/-- The colour produced by the `n`-th call of `next` (0-indexed) on a wheel
currently in state `w`. -/
def ColourWheel.output (w : ColourWheel) (n : Nat) : String :=
  match n with
  | 0 => w.next.1
  | n + 1 => ColourWheel.output w.next.2 n

/-! ## Remote-feed case classification (lines 80-86)

For each `case` string of a kept event:
`if case in ["1",...,"8"]: room_cases.append("S" + case)`
`elif case[0] == "A": audio_cases.append(case.upper())`
`else: room_cases.append(case.upper())`.
Indexing `case[0]` on the empty string raises `IndexError`, modelled as
`none`. -/

/-- The literal digit-string list of line 81. -/
def roomDigits : List String := ["1", "2", "3", "4", "5", "6", "7", "8"]

/-- Classification of a single case token; `none` models the `IndexError`
raised by `case[0]` on an empty token. -/
inductive CaseKind where
  | room (s : String)
  | audio (s : String)
deriving DecidableEq, Repr

/-- Python `str.upper()` on the token strings (character-wise upper-casing;
the tokens are ASCII). -/
def pyUpper (s : String) : String :=
  ⟨s.data.map Char.toUpper⟩

/-- Classify one `case` entry per lines 81-86: membership in the digit
list first, then the `case[0] == "A"` test (which raises on an empty
token), else the generic room branch. -/
def classifyCase (case : String) : Option CaseKind :=
  if case ∈ roomDigits then some (.room ("S" ++ case))
  else
    match case.data with
    | [] => none
    | c :: _ =>
      if c = 'A' then some (.audio (pyUpper case))
      else some (.room (pyUpper case))

/-- The classification loop over `source_event["cases"]` (lines 77-86),
accumulating `room_cases` and `audio_cases` by appending; an `IndexError`
on any token aborts the whole loop (`none`). -/
def classifyLoop : List String → List String → List String →
    Option (List String × List String)
  | [], rooms, audios => some (rooms, audios)
  | c :: cs, rooms, audios =>
    match classifyCase c with
    | none => none
    | some (.room r) => classifyLoop cs (rooms ++ [r]) audios
    | some (.audio a) => classifyLoop cs rooms (audios ++ [a])

/-- Classify a full `cases` list starting from the two empty lists of
lines 77-78. -/
def classifyCases (cases : List String) : Option (List String × List String) :=
  classifyLoop cases [] []

/-! ## Calendar data model -/

/-- A normalized event stored in `self.calendar`: the dict built at
lines 73-89 (keys `start`, `end`, `room cases`, `audio cases`), which is
also the layout of events in the YAML file (spec schema). -/
structure Event where
  start : Date
  «end» : Date
  room_cases : List String
  audio_cases : List String
deriving DecidableEq, Repr

/-- `self.calendar` when it is a mapping: a Python dict from event name to
event, i.e. an insertion-ordered association list. -/
abbrev Calendar := List (String × Event)

/-- Python dict assignment `cal[k] = v`: overwrite in place if `k` is
present, else append at the end. -/
def Calendar.set (cal : Calendar) (k : String) (v : Event) : Calendar :=
  if cal.any (fun p => p.1 == k) then
    cal.map (fun p => if p.1 == k then (k, v) else p)
  else
    cal ++ [(k, v)]

/-- `k in cal` for a Python dict. -/
def Calendar.hasKey (cal : Calendar) (k : String) : Bool :=
  cal.any (fun p => p.1 == k)

/-! ## Source Loader — remote feed variant (`load_json_url`, lines 58-101) -/

/-- One entry of the remote document's `voc_events` mapping, with its date
strings already parsed (`strptime` with format `%Y-%m-%d` is the
out-of-scope date parser). -/
structure SourceEvent where
  start_date : Date
  end_date : Date
  cases : List String
deriving DecidableEq, Repr

/-- What reaches `load_json_url` from the out-of-scope network/JSON layer:
either an exception before the loop (network or JSON-decode error), a
decoded document without the `"voc_events"` key (its access raises
`KeyError`), or the decoded `voc_events` entries in document order. -/
inductive RemoteInput where
  | netError
  | noVocEvents
  | events (l : List (String × SourceEvent))
deriving DecidableEq, Repr

/-- The `for source_name, source_event in events["voc_events"].items()` loop
(lines 65-91): skip events starting before January 1 of the current year,
classify the kept events' cases, store kept events into `self.calendar`.
Returns the calendar state when the loop ends plus `true`, or the partially
mutated calendar plus `false` when a classification `IndexError` aborts
the loop. -/
def processEvents (today : Date) :
    List (String × SourceEvent) → Calendar → Calendar × Bool
  | [], cal => (cal, true)
  | (name, se) :: rest, cal =>
    if (firstOfTheYear today).leb se.start_date then
      match classifyCases se.cases with
      | none => (cal, false)
      | some (rooms, audios) =>
        processEvents today rest
          (cal.set name ⟨se.start_date, se.end_date, rooms, audios⟩)
    else
      processEvents today rest cal

/-- `load_json_url` (lines 58-101): run the event loop; on success return
`True` only when `len(self.calendar) > 0` (line 93); every exception —
network, decode, missing `"voc_events"`, or `IndexError` in the loop — is
caught by the blanket `except Exception` (line 97) and the function falls
through to `return False`.  Result: final `self.calendar` state and the
returned flag. -/
def load_json_url (today : Date) (input : RemoteInput) (cal : Calendar) :
    Calendar × Bool :=
  match input with
  | .netError => (cal, false)
  | .noVocEvents => (cal, false)
  | .events l =>
    let (cal2, ok) := processEvents today l cal
    if ok then (cal2, decide (cal2.length > 0)) else (cal2, false)

/-! ## Source Loader — local file variant (`load_yaml_file`, lines 44-56) -/

/-- A parsed YAML document: `yaml.safe_load` may produce `None` (empty
document), a mapping, or some other scalar value; `load_yaml_file` stores
whichever it gets without shape validation. -/
inductive YamlDoc where
  | null
  | mapping (m : Calendar)
  | scalar (s : String)
deriving DecidableEq, Repr

/-- What reaches `load_yaml_file` from the out-of-scope file system and
YAML parser: an `OSError` on open/read, a `yaml.YAMLError` on parse, or
the parsed document. -/
inductive FileReadResult where
  | osError
  | yamlError
  | parsed (d : YamlDoc)
deriving DecidableEq, Repr

/-- `load_yaml_file` (lines 44-56): on a successful parse assign
`self.calendar = yaml.safe_load(stream)` and return `True`; on `OSError`
or `yaml.YAMLError` print the error and return `False`, leaving
`self.calendar` unchanged.  Result: `self.calendar` state and the flag. -/
def load_yaml_file (cal : YamlDoc) (r : FileReadResult) : YamlDoc × Bool :=
  match r with
  | .osError => (cal, false)
  | .yamlError => (cal, false)
  | .parsed d => (d, true)

/-! ## Resource Registry (lines 41, 104-140)

`self.resources` is a dict from resource name to the `gantt.Resource`
object created for it.  Object identity is modelled by a creation serial
number: the `n`-th `gantt.Resource(...)` call of the run gets identity `n`,
which here is always the size of the registry at creation time. -/

/-- `self.resources`: name ↦ identity of the `gantt.Resource` created for
that name. -/
abbrev Registry := List (String × Nat)

/-- `is_resource_known` (lines 104-105): `resource_name in self.resources`. -/
def is_resource_known (reg : Registry) (resource_name : String) : Bool :=
  reg.any (fun p => p.1 == resource_name)

/-- `create_unique_gantt_resource` (lines 107-110): if the name is unknown,
create a fresh `gantt.Resource` (identity = current registry size) and
store it; otherwise do nothing. -/
def create_unique_gantt_resource (reg : Registry) (resource_name : String) :
    Registry :=
  if is_resource_known reg resource_name then reg
  else reg ++ [(resource_name, reg.length)]

/-- Dict lookup `self.resources[name]` as an `Option`; `none` models the
`KeyError` raised for a never-registered name. -/
def Registry.get (reg : Registry) (name : String) : Option Nat :=
  (reg.find? (fun p => p.1 == name)).map (fun p => p.2)

/-- `create_resourses_from_event` (lines 112-123): register every room case,
then every audio case, in list order.  (The model's events always carry
both lists, as both loaders produce them.) -/
def create_resourses_from_event (reg : Registry) (event_details : Event) :
    Registry :=
  let reg1 := event_details.room_cases.foldl create_unique_gantt_resource reg
  event_details.audio_cases.foldl create_unique_gantt_resource reg1

/-- Look up each name in order, collecting the resources; `none` models the
`KeyError` raised on the first missing name. -/
def lookupList (reg : Registry) : List String → Option (List Nat)
  | [] => some []
  | n :: ns =>
    match reg.get n with
    | none => none
    | some i => (lookupList reg ns).map (fun l => i :: l)

/-- `retrieve_resources_for_event` (lines 125-140): look up the resource of
every room case, then of every audio case, in list order; `none` models the
`KeyError` on a missing name. -/
def retrieve_resources_for_event (reg : Registry) (event_details : Event) :
    Option (List Nat) :=
  lookupList reg (event_details.room_cases ++ event_details.audio_cases)

/-- The registration history of one run: starting from the fresh empty
`self.resources` dict (line 41), apply `create_unique_gantt_resource` to
every name the run registers, in order. -/
def registerAll (names : List String) : Registry :=
  names.foldl create_unique_gantt_resource []

/-! ## Schedule Builder (lines 143-181) -/

/-- A `gantt.Task` as constructed at lines 157-161 (the fields passed to
the out-of-scope charting engine). -/
structure Task where
  name : String
  start : Date
  duration : Int
  resources : List Nat
  color : String
deriving DecidableEq, Repr

/-- `create_event_as_gantt_task` (lines 143-163): duration is
`(end - start).days`; resources are retrieved from the registry (a
`KeyError` would propagate, modelled by `none`). -/
def create_event_as_gantt_task (reg : Registry) (event_name : String)
    (event_details : Event) (colour : String) : Option Task :=
  (retrieve_resources_for_event reg event_details).map fun resources =>
    { name := event_name
      start := event_details.start
      duration := dateSubDays event_details.«end» event_details.start
      resources := resources
      color := colour }

/-- `create_calendar` (lines 166-181): walk the calendar in order with one
shared `ColourWheel`, registering each event's resources and then building
its task.  Returns the final registry and the task list (`none` on a
`KeyError`, which cannot actually occur since registration precedes
retrieval). -/
def create_calendar_loop (reg : Registry) (wheel : ColourWheel) :
    Calendar → Option (Registry × List Task)
  | [] => some (reg, [])
  | (event_name, event_details) :: rest =>
    let reg2 := create_resourses_from_event reg event_details
    let (colour, wheel2) := wheel.next
    match create_event_as_gantt_task reg2 event_name event_details colour with
    | none => none
    | some task =>
      (create_calendar_loop reg2 wheel2 rest).map fun (regF, tasks) =>
        (regF, task :: tasks)

/-! ## main (lines 200-226) and process exit (lines 228-238) -/

/-- The argparse result (lines 229-233): each option is `some s` when the
flag was supplied with a truthy (non-empty) string, `none` otherwise. -/
structure Arguments where
  calendar_yaml_file : Option String
  calendar_json_url : Option String
  calendar_svg_file : Option String
deriving DecidableEq, Repr

/-- The environment of one run: today's date and the outcomes of the two
out-of-scope source channels. -/
structure RunInput where
  today : Date
  yamlRead : FileReadResult
  jsonFetch : RemoteInput
deriving DecidableEq, Repr

/-- `C3VOCCalendar.main` (lines 200-226): pick the source by argument
truthiness (`if arguments.calendar_yaml_file: ... elif
arguments.calendar_json_url: ... else: print error`); when the chosen
loader succeeds, build and export the chart and return `True`, otherwise
return `False`.  Both loaders start from the run's fresh empty
`self.calendar = {}` (line 42).  Result: (returned flag, whether
`export_calendar` was reached). -/
def main (args : Arguments) (inp : RunInput) : Bool × Bool :=
  match args.calendar_yaml_file with
  | some _ =>
    if (load_yaml_file (.mapping []) inp.yamlRead).2 then (true, true)
    else (false, false)
  | none =>
    match args.calendar_json_url with
    | some _ =>
      if (load_json_url inp.today inp.jsonFetch []).2 then (true, true)
      else (false, false)
    | none => (false, false)

/-- `exit(result)` at line 238: Python's `exit` treats a `bool` argument as
the integer exit status, so `exit(True)` terminates with status 1 and
`exit(False)` with status 0. -/
def exitStatus (result : Bool) : Nat :=
  if result then 1 else 0

/-- The process exit status of one invocation (lines 235-238). -/
def processExit (args : Arguments) (inp : RunInput) : Nat :=
  exitStatus (main args inp).1

/-! ## Helper lemmas -/

theorem colours_length : colours.length = 20 := rfl

theorem ColourWheel.output_zero (w : ColourWheel) : w.output 0 = w.next.1 := rfl

theorem ColourWheel.output_succ (w : ColourWheel) (n : Nat) :
    w.output (n + 1) = w.next.2.output n := rfl

/-- Invariant of the wheel: from any iterator position `idx ≤ 20`, the
`n`-th draw is palette entry `(idx + n) % 20`. -/
theorem wheel_output_eq (n : Nat) : ∀ idx : Nat, idx ≤ 20 →
    ColourWheel.output ⟨idx⟩ n = colours.getD ((idx + n) % 20) "" := by
  induction n with
  | zero =>
    intro idx h
    rw [ColourWheel.output_zero]
    rcases Nat.lt_or_ge idx 20 with hlt | hge
    · have : (ColourWheel.mk idx).next.1 = colours.getD idx "" := by
        simp [ColourWheel.next, colours_length, hlt]
      rw [this, Nat.add_zero, Nat.mod_eq_of_lt hlt]
    · have h20 : idx = 20 := Nat.le_antisymm h hge
      subst h20
      have : (ColourWheel.mk 20).next.1 = colours.getD 0 "" := by
        simp [ColourWheel.next, colours_length]
      rw [this]
  | succ n ih =>
    intro idx h
    rw [ColourWheel.output_succ]
    rcases Nat.lt_or_ge idx 20 with hlt | hge
    · have hnext : (ColourWheel.mk idx).next.2 = ⟨idx + 1⟩ := by
        simp [ColourWheel.next, colours_length, hlt]
      rw [hnext, ih (idx + 1) (by omega)]
      congr 1
      omega
    · have h20 : idx = 20 := Nat.le_antisymm h hge
      subst h20
      have hnext : (ColourWheel.mk 20).next.2 = ⟨1⟩ := by
        simp [ColourWheel.next, colours_length]
      rw [hnext, ih 1 (by omega)]
      congr 1
      omega

/-- Replacing the value stored under `k` keeps every key's presence; the
mapped update of `Calendar.set` never changes the key multiset. -/
theorem any_map_fst_set (cal : Calendar) (k n : String) (v : Event) :
    ((cal.map fun p => if p.1 == k then (k, v) else p).any fun p => p.1 == n) =
      (cal.any fun p => p.1 == n) := by
  induction cal with
  | nil => rfl
  | cons p rest ih =>
    simp only [List.map_cons, List.any_cons, ih]
    cases hp : p.1 == k
    · simp [hp]
    · have hpk : p.1 = k := eq_of_beq hp
      simp [hp, hpk]

/-- Key presence after a Python dict assignment `cal[k] = v`. -/
theorem hasKey_set (cal : Calendar) (k n : String) (v : Event) :
    (cal.set k v).hasKey n = (cal.hasKey n || k == n) := by
  unfold Calendar.set Calendar.hasKey
  split
  next hmem =>
    rw [any_map_fst_set]
    cases hkn : k == n
    · simp
    · have hk : k = n := eq_of_beq hkn
      subst hk
      simp [hmem]
  next hmem => simp [List.any_append]

/-- Unfolding of `processEvents` at a cons cell. -/
theorem processEvents_cons (today : Date) (name : String) (se : SourceEvent)
    (rest : List (String × SourceEvent)) (cal : Calendar) :
    processEvents today ((name, se) :: rest) cal =
      if (firstOfTheYear today).leb se.start_date then
        match classifyCases se.cases with
        | none => (cal, false)
        | some (rooms, audios) =>
          processEvents today rest
            (cal.set name ⟨se.start_date, se.end_date, rooms, audios⟩)
      else processEvents today rest cal := rfl

/-- A kept event whose cases classify cleanly is stored and processing
continues. -/
theorem processEvents_kept_some (today : Date) (name : String) (se : SourceEvent)
    (rest : List (String × SourceEvent)) (cal : Calendar)
    (rooms audios : List String)
    (hk : (firstOfTheYear today).leb se.start_date = true)
    (hc : classifyCases se.cases = some (rooms, audios)) :
    processEvents today ((name, se) :: rest) cal =
      processEvents today rest
        (cal.set name ⟨se.start_date, se.end_date, rooms, audios⟩) := by
  rw [processEvents_cons, if_pos hk, hc]

/-- A kept event with a classification `IndexError` aborts the loop. -/
theorem processEvents_kept_none (today : Date) (name : String) (se : SourceEvent)
    (rest : List (String × SourceEvent)) (cal : Calendar)
    (hk : (firstOfTheYear today).leb se.start_date = true)
    (hc : classifyCases se.cases = none) :
    processEvents today ((name, se) :: rest) cal = (cal, false) := by
  rw [processEvents_cons, if_pos hk, hc]

/-- An event starting before January 1 of the current year is skipped. -/
theorem processEvents_skip (today : Date) (name : String) (se : SourceEvent)
    (rest : List (String × SourceEvent)) (cal : Calendar)
    (hk : (firstOfTheYear today).leb se.start_date = false) :
    processEvents today ((name, se) :: rest) cal =
      processEvents today rest cal := by
  rw [processEvents_cons, if_neg (by simp [hk])]

/-- After an exception-free run of the event loop, a name is a key of the
final calendar exactly when it already was one or some remote event with
that name passed the year filter. -/
theorem processEvents_hasKey (today : Date) (n : String) :
    ∀ (evs : List (String × SourceEvent)) (cal : Calendar),
      (processEvents today evs cal).2 = true →
      (processEvents today evs cal).1.hasKey n =
        (cal.hasKey n ||
          evs.any fun p => p.1 == n && (firstOfTheYear today).leb p.2.start_date) := by
  intro evs
  induction evs with
  | nil => intro cal _; simp [processEvents]
  | cons q rest ih =>
    intro cal hok
    obtain ⟨name, se⟩ := q
    cases hk : (firstOfTheYear today).leb se.start_date with
    | false =>
      rw [processEvents_skip today name se rest cal hk] at hok ⊢
      rw [ih cal hok, List.any_cons]
      simp [hk]
    | true =>
      cases hcl : classifyCases se.cases with
      | none =>
        rw [processEvents_kept_none today name se rest cal hk hcl] at hok
        simp at hok
      | some pr =>
        obtain ⟨rooms, audios⟩ := pr
        rw [processEvents_kept_some today name se rest cal rooms audios hk hcl] at hok ⊢
        rw [ih _ hok, hasKey_set, List.any_cons]
        simp [hk, Bool.or_assoc]

/-- With no prior calendar entries, the loop's output is non-empty exactly
when some event passed the year filter (given the loop reached its end). -/
theorem processEvents_nonempty_iff (today : Date) (l : List (String × SourceEvent))
    (hok : (processEvents today l []).2 = true) :
    (processEvents today l []).1.length > 0 ↔
      ∃ p ∈ l, (firstOfTheYear today).leb p.2.start_date = true := by
  constructor
  · intro hlen
    obtain ⟨c, rest, hc⟩ : ∃ c rest, (processEvents today l []).1 = c :: rest := by
      cases hcal : (processEvents today l []).1 with
      | nil => rw [hcal] at hlen; simp at hlen
      | cons c rest => exact ⟨c, rest, rfl⟩
    have hkey : (processEvents today l []).1.hasKey c.1 = true := by
      rw [hc]; simp [Calendar.hasKey]
    rw [processEvents_hasKey today c.1 l [] hok] at hkey
    simp only [Calendar.hasKey, List.any_nil, Bool.false_or, List.any_eq_true] at hkey
    obtain ⟨p, hmem, hpred⟩ := hkey
    simp only [Bool.and_eq_true] at hpred
    exact ⟨p, hmem, hpred.2⟩
  · rintro ⟨p, hmem, hleb⟩
    have hkey : (processEvents today l []).1.hasKey p.1 = true := by
      rw [processEvents_hasKey today p.1 l [] hok]
      simp only [Calendar.hasKey, List.any_nil, Bool.false_or, List.any_eq_true]
      exact ⟨p, hmem, by simp [hleb]⟩
    unfold Calendar.hasKey at hkey
    rw [List.any_eq_true] at hkey
    obtain ⟨x, hx, _⟩ := hkey
    exact List.length_pos.mpr (List.ne_nil_of_mem hx)

/-- Evaluation of `load_json_url` on a decoded `voc_events` list. -/
theorem load_json_url_events (today : Date) (l : List (String × SourceEvent))
    (cal c : Calendar) (o : Bool) (h : processEvents today l cal = (c, o)) :
    load_json_url today (.events l) cal = (c, o && decide (c.length > 0)) := by
  have hstep : load_json_url today (.events l) cal =
      (match processEvents today l cal with
       | (cal2, ok) =>
         if ok = true then (cal2, decide (cal2.length > 0)) else (cal2, false)) := rfl
  rw [hstep, h]
  cases o <;> simp

/-- A token list containing the empty string always aborts classification
with the modelled `IndexError`. -/
theorem classifyLoop_empty_mem :
    ∀ (cs rooms audios : List String), "" ∈ cs →
      classifyLoop cs rooms audios = none := by
  intro cs
  induction cs with
  | nil => intro _ _ h; cases h
  | cons c rest ih =>
    intro rooms audios h
    rcases List.mem_cons.mp h with hc | hc
    · have hc2 : c = "" := hc.symm
      subst hc2
      have hnone : classifyCase "" = none := by decide
      simp [classifyLoop, hnone]
    · cases hcc : classifyCase c with
      | none => simp [classifyLoop, hcc]
      | some k =>
        cases k with
        | room r =>
          simp only [classifyLoop, hcc]
          exact ih _ _ hc
        | audio a =>
          simp only [classifyLoop, hcc]
          exact ih _ _ hc

/-- A kept event carrying an empty case token forces the whole event loop
to report failure. -/
theorem processEvents_empty_case_false (today : Date) :
    ∀ (l : List (String × SourceEvent)) (cal : Calendar),
      (∃ p ∈ l, (firstOfTheYear today).leb p.2.start_date = true ∧ "" ∈ p.2.cases) →
      (processEvents today l cal).2 = false := by
  intro l
  induction l with
  | nil => rintro cal ⟨p, hp, _⟩; cases hp
  | cons q rest ih =>
    rintro cal ⟨p, hp, hleb, hcase⟩
    obtain ⟨name, se⟩ := q
    rcases List.mem_cons.mp hp with rfl | hp'
    · rw [processEvents_kept_none today name se rest cal hleb
        (classifyLoop_empty_mem _ _ _ hcase)]
    · cases hk : (firstOfTheYear today).leb se.start_date with
      | false =>
        rw [processEvents_skip today name se rest cal hk]
        exact ih cal ⟨p, hp', hleb, hcase⟩
      | true =>
        cases hcl : classifyCases se.cases with
        | none => rw [processEvents_kept_none today name se rest cal hk hcl]
        | some pr =>
          obtain ⟨rooms, audios⟩ := pr
          rw [processEvents_kept_some today name se rest cal rooms audios hk hcl]
          exact ih _ ⟨p, hp', hleb, hcase⟩

/-! ## Claim theorems -/

/-- C4: the `ColourWheel` palette contains exactly 20 pairwise-distinct
colour values, and on any instance (all instances start in state
`ColourWheel.init`) the `i`-th draw equals `palette[i mod 20]`; drawing is
a total function and never fails. -/
theorem c4_colour_sequencer :
    colours.length = 20 ∧ colours.Nodup ∧
    ∀ n : Nat, ColourWheel.output ColourWheel.init n = colours.getD (n % 20) "" := by
  refine ⟨rfl, by decide, fun n => ?_⟩
  have h := wheel_output_eq n 0 (by omega)
  simpa using h

/-- C2: case-token classification follows the source's precedence: a token
that is exactly one of the literal strings "1".."8" becomes room case
`"S" + digit`; otherwise a token whose first character is exactly `'A'`
becomes an audio case upper-cased verbatim; any other (non-empty) token
becomes a room case upper-cased verbatim; and
`["3", "A1", "foo"]` classifies as room `["S3", "FOO"]`, audio `["A1"]`. -/
theorem c2_case_classification :
    (∀ case, case ∈ roomDigits →
      classifyCase case = some (.room ("S" ++ case))) ∧
    (∀ case c rest, case ∉ roomDigits → case.data = c :: rest → c = 'A' →
      classifyCase case = some (.audio (pyUpper case))) ∧
    (∀ case c rest, case ∉ roomDigits → case.data = c :: rest → c ≠ 'A' →
      classifyCase case = some (.room (pyUpper case))) ∧
    classifyCases ["3", "A1", "foo"] = some (["S3", "FOO"], ["A1"]) := by
  refine ⟨?_, ?_, ?_, by decide⟩
  · intro case h
    simp [classifyCase, h]
  · intro case c rest hmem hdata hA
    simp [classifyCase, hmem, hdata, hA]
  · intro case c rest hmem hdata hA
    simp [classifyCase, hmem, hdata, hA]

/-- Witness for C2 at the spec's example tokens. -/
theorem c2_case_classification_witness :
    classifyCase "3" = some (.room "S3") ∧
    classifyCase "A1" = some (.audio "A1") ∧
    classifyCase "foo" = some (.room "FOO") := by
  refine ⟨?_, ?_, ?_⟩
  · rw [c2_case_classification.1 "3" (by decide)]
    decide
  · rw [c2_case_classification.2.1 "A1" 'A' ['1'] (by decide) rfl rfl]
    decide
  · rw [c2_case_classification.2.2.1 "foo" 'f' ['o', 'o'] (by decide) rfl (by decide)]
    decide

/-- C7: every task built from an event carries duration
`(end - start).days`, the whole-day difference of the two dates; and the
dates 2024-06-01 and 2024-06-04 are 3 days apart. -/
theorem c7_task_duration :
    (∀ reg event_name event_details colour task,
      create_event_as_gantt_task reg event_name event_details colour = some task →
      task.duration = dateSubDays event_details.«end» event_details.start) ∧
    dateSubDays ⟨2024, 6, 4⟩ ⟨2024, 6, 1⟩ = 3 := by
  constructor
  · intro reg event_name event_details colour task h
    unfold create_event_as_gantt_task at h
    cases hr : retrieve_resources_for_event reg event_details with
    | none => rw [hr] at h; simp at h
    | some l =>
      rw [hr] at h
      rw [Option.map_some'] at h
      injection h with h
      rw [← h]
  · decide

/-- Witness for C7: the 2024-06-01 → 2024-06-04 event yields duration 3. -/
theorem c7_task_duration_witness :
    (create_event_as_gantt_task [] "Event" ⟨⟨2024, 6, 1⟩, ⟨2024, 6, 4⟩, [], []⟩
        "#28C3AB").map Task.duration = some 3 := by
  have h := c7_task_duration.1 [] "Event" ⟨⟨2024, 6, 1⟩, ⟨2024, 6, 4⟩, [], []⟩ "#28C3AB"
      ⟨"Event", ⟨2024, 6, 1⟩, dateSubDays ⟨2024, 6, 4⟩ ⟨2024, 6, 1⟩, [], "#28C3AB"⟩ rfl
  show some (Task.duration
      ⟨"Event", ⟨2024, 6, 1⟩, dateSubDays ⟨2024, 6, 4⟩ ⟨2024, 6, 1⟩, [], "#28C3AB"⟩) = some 3
  rw [h]
  decide

/-- C3: when the remote event loop runs to completion, an event name is a
key of the schedule map (built from the run's fresh empty calendar) if and
only if some remote event with that name has a start date on or after
January 1 of the current year; events starting earlier are skipped
entirely. -/
theorem c3_year_filter (today : Date) (evs : List (String × SourceEvent))
    (hok : (processEvents today evs []).2 = true) (n : String) :
    (processEvents today evs []).1.hasKey n = true ↔
      ∃ se, (n, se) ∈ evs ∧ (firstOfTheYear today).leb se.start_date = true := by
  rw [processEvents_hasKey today n evs [] hok]
  simp only [Calendar.hasKey, List.any_nil, Bool.false_or, List.any_eq_true,
    Bool.and_eq_true, beq_iff_eq]
  constructor
  · rintro ⟨⟨m, se⟩, hmem, hm, hleb⟩
    subst hm
    exact ⟨se, hmem, hleb⟩
  · rintro ⟨se, hmem, hleb⟩
    exact ⟨(n, se), hmem, rfl, hleb⟩

/-- Witness for C3: with today in 2023, the event starting 2023-01-01
survives and the event starting 2022-12-31 does not. -/
theorem c3_year_filter_witness :
    (processEvents ⟨2023, 5, 15⟩
        [("congress", ⟨⟨2023, 1, 1⟩, ⟨2023, 1, 2⟩, []⟩),
         ("old", ⟨⟨2022, 12, 31⟩, ⟨2023, 1, 2⟩, []⟩)] []).1.hasKey "congress" = true ∧
    (processEvents ⟨2023, 5, 15⟩
        [("congress", ⟨⟨2023, 1, 1⟩, ⟨2023, 1, 2⟩, []⟩),
         ("old", ⟨⟨2022, 12, 31⟩, ⟨2023, 1, 2⟩, []⟩)] []).1.hasKey "old" = false := by
  constructor
  · exact (c3_year_filter ⟨2023, 5, 15⟩
      [("congress", ⟨⟨2023, 1, 1⟩, ⟨2023, 1, 2⟩, []⟩),
       ("old", ⟨⟨2022, 12, 31⟩, ⟨2023, 1, 2⟩, []⟩)] rfl "congress").mpr
      ⟨⟨⟨2023, 1, 1⟩, ⟨2023, 1, 2⟩, []⟩, by decide, by decide⟩
  · decide

/-- C6: the remote loader succeeds if and only if no error occurred (the
fetch decoded to a `voc_events` list and the loop finished without an
exception) and at least one event survived the year filter; and whenever
the loader fails, `main` reports failure and never reaches the export
step. -/
theorem c6_remote_success_iff :
    (∀ (today : Date) (input : RemoteInput),
      (load_json_url today input []).2 = true ↔
        ∃ l, input = RemoteInput.events l ∧
          (processEvents today l []).2 = true ∧
          ∃ p ∈ l, (firstOfTheYear today).leb p.2.start_date = true) ∧
    (∀ (args : Arguments) (inp : RunInput), args.calendar_yaml_file = none →
      (load_json_url inp.today inp.jsonFetch []).2 = false →
      main args inp = (false, false)) := by
  constructor
  · intro today input
    cases input with
    | netError =>
      simp [load_json_url]
    | noVocEvents =>
      simp [load_json_url]
    | events l =>
      rw [load_json_url_events today l [] (processEvents today l []).1
        (processEvents today l []).2 rfl]
      simp only [Bool.and_eq_true, decide_eq_true_eq]
      constructor
      · rintro ⟨hok, hlen⟩
        exact ⟨l, rfl, hok, (processEvents_nonempty_iff today l hok).mp hlen⟩
      · rintro ⟨l', heq, hok, hkept⟩
        cases heq
        exact ⟨hok, (processEvents_nonempty_iff today l hok).mpr hkept⟩
  · intro args inp hyaml hload
    unfold main
    rw [hyaml]
    cases hurl : args.calendar_json_url with
    | some u => simp [hload]
    | none => rfl

/-- Witness for C6: a network error makes the run fail with no export. -/
theorem c6_remote_success_iff_witness :
    main ⟨none, some "https://c3voc.de/eventkalender/events.json", some "out.svg"⟩
        ⟨⟨2023, 5, 15⟩, .parsed .null, .netError⟩ = (false, false) :=
  c6_remote_success_iff.2 _ _ rfl rfl

/-- C9: a kept remote event carrying the empty string as a case token makes
the whole remote load fail, no matter how many other events are valid: the
`IndexError` from `case[0]` is caught by the blanket handler and
`load_json_url` returns `False`. -/
theorem c9_empty_case_aborts (today : Date) (l : List (String × SourceEvent))
    (cal : Calendar)
    (h : ∃ p ∈ l, (firstOfTheYear today).leb p.2.start_date = true ∧ "" ∈ p.2.cases) :
    (load_json_url today (.events l) cal).2 = false := by
  have hf := processEvents_empty_case_false today l cal h
  rw [load_json_url_events today l cal (processEvents today l cal).1
    (processEvents today l cal).2 rfl]
  simp [hf]

/-- Witness for C9: one event with an empty case token aborts a load that
also contains a fully valid event. -/
theorem c9_empty_case_aborts_witness :
    (load_json_url ⟨2023, 5, 15⟩
        (.events [("good", ⟨⟨2023, 2, 1⟩, ⟨2023, 2, 3⟩, ["3"]⟩),
                  ("bad", ⟨⟨2023, 3, 1⟩, ⟨2023, 3, 2⟩, [""]⟩)]) []).2 = false :=
  c9_empty_case_aborts _ _ _
    ⟨("bad", ⟨⟨2023, 3, 1⟩, ⟨2023, 3, 2⟩, [""]⟩), by decide, by decide, by decide⟩

/-- `main` either succeeds and exports, or fails and skips export. -/
theorem main_cases (args : Arguments) (inp : RunInput) :
    main args inp = (true, true) ∨ main args inp = (false, false) := by
  unfold main
  cases args.calendar_yaml_file with
  | some f =>
    cases h : (load_yaml_file (.mapping []) inp.yamlRead).2 <;> simp [h]
  | none =>
    cases args.calendar_json_url with
    | some u =>
      cases h : (load_json_url inp.today inp.jsonFetch []).2 <;> simp [h]
    | none => simp

/-- C10: the local-file loader succeeds on every file whose content the
YAML parser accepts, with no shape validation: the schedule map is set to
whatever value came out of the parse — even a non-mapping such as the
`None` produced by an empty document — and success is reported exactly for
parsed documents. -/
theorem c10_yaml_loader_no_validation (cal : YamlDoc) :
    (∀ d, load_yaml_file cal (.parsed d) = (d, true)) ∧
    load_yaml_file cal (.parsed .null) = (YamlDoc.null, true) ∧
    (∀ r, (load_yaml_file cal r).2 = true ↔ ∃ d, r = FileReadResult.parsed d) := by
  refine ⟨fun d => rfl, rfl, fun r => ?_⟩
  cases r with
  | osError => simp [load_yaml_file]
  | yamlError => simp [load_yaml_file]
  | parsed d => simp [load_yaml_file]

/-- C8: invoking with neither a source file nor a source URL makes `main`
report failure and skip export; more generally every loader failure makes
`main` return failure with no export, and a failed `main` never exports. -/
theorem c8_config_error_no_output :
    (∀ (args : Arguments) (inp : RunInput),
      args.calendar_yaml_file = none → args.calendar_json_url = none →
      main args inp = (false, false)) ∧
    (∀ (args : Arguments) (inp : RunInput) (f : String),
      args.calendar_yaml_file = some f →
      (load_yaml_file (.mapping []) inp.yamlRead).2 = false →
      main args inp = (false, false)) ∧
    (∀ (args : Arguments) (inp : RunInput) (u : String),
      args.calendar_yaml_file = none → args.calendar_json_url = some u →
      (load_json_url inp.today inp.jsonFetch []).2 = false →
      main args inp = (false, false)) ∧
    (∀ (args : Arguments) (inp : RunInput),
      (main args inp).1 = false → (main args inp).2 = false) := by
  refine ⟨?_, ?_, ?_, ?_⟩
  · intro args inp hyaml hurl
    unfold main
    rw [hyaml, hurl]
  · intro args inp f hyaml hload
    unfold main
    rw [hyaml, hload]
    rfl
  · intro args inp u hyaml hurl hload
    unfold main
    rw [hyaml, hurl, hload]
    rfl
  · intro args inp h
    rcases main_cases args inp with hm | hm
    · rw [hm] at h; cases h
    · rw [hm]

/-- Witness for C8: a run with neither `-f` nor `-u` fails with no export. -/
theorem c8_config_error_no_output_witness :
    main ⟨none, none, some "out.svg"⟩
      ⟨⟨2023, 5, 15⟩, .parsed .null, .netError⟩ = (false, false) :=
  c8_config_error_no_output.1 _ _ rfl rfl

/-- C1 (code bug): `main` returns `True` on success and `False` on failure,
and line 238 passes that boolean straight to `exit`, so a successful run
(load succeeded, chart exported) terminates with the truthy status 1 while
a failed run terminates with the falsy status 0 — the opposite of the
claimed convention. -/
theorem c1_exit_status_inverted :
    main ⟨some "calendar.yaml", none, some "calendar.svg"⟩
        ⟨⟨2023, 5, 15⟩,
          .parsed (.mapping [("event", ⟨⟨2023, 6, 1⟩, ⟨2023, 6, 3⟩, ["S3"], ["A1"]⟩)]),
          .netError⟩ = (true, true) ∧
    processExit ⟨some "calendar.yaml", none, some "calendar.svg"⟩
        ⟨⟨2023, 5, 15⟩,
          .parsed (.mapping [("event", ⟨⟨2023, 6, 1⟩, ⟨2023, 6, 3⟩, ["S3"], ["A1"]⟩)]),
          .netError⟩ = 1 ∧
    main ⟨none, none, some "calendar.svg"⟩
        ⟨⟨2023, 5, 15⟩, .parsed .null, .netError⟩ = (false, false) ∧
    processExit ⟨none, none, some "calendar.svg"⟩
        ⟨⟨2023, 5, 15⟩, .parsed .null, .netError⟩ = 0 :=
  ⟨rfl, rfl, rfl, rfl⟩

/-- Unfolding of `create_unique_gantt_resource`. -/
theorem create_unique_eq (reg : Registry) (n : String) :
    create_unique_gantt_resource reg n =
      if is_resource_known reg n then reg else reg ++ [(n, reg.length)] := rfl

/-- Registering `m` makes exactly `m` known in addition to what was. -/
theorem known_create (reg : Registry) (m n : String) :
    is_resource_known (create_unique_gantt_resource reg m) n =
      (is_resource_known reg n || m == n) := by
  rw [create_unique_eq]
  split
  next h =>
    cases hmn : m == n
    · simp
    · have hm : m = n := eq_of_beq hmn
      subst hm
      simp [h]
  next h => simp [is_resource_known, List.any_append]

/-- Names known after a registration sequence from `reg`. -/
theorem known_foldl (names : List String) (n : String) :
    ∀ reg : Registry,
      is_resource_known (names.foldl create_unique_gantt_resource reg) n =
        (is_resource_known reg n || names.any fun m => m == n) := by
  induction names with
  | nil => intro reg; simp
  | cons m rest ih =>
    intro reg
    simp only [List.foldl_cons, List.any_cons]
    rw [ih, known_create, Bool.or_assoc]

/-- The registry of a run knows exactly the names registered so far. -/
theorem known_registerAll (names : List String) (n : String) :
    is_resource_known (registerAll names) n = true ↔ n ∈ names := by
  unfold registerAll
  rw [known_foldl]
  simp only [is_resource_known, List.any_nil, Bool.false_or, List.any_eq_true,
    beq_iff_eq]
  constructor
  · rintro ⟨m, hm, rfl⟩
    exact hm
  · intro h
    exact ⟨n, h, rfl⟩

/-- Registration preserves the serial-number invariant: the identities
stored in the registry are exactly `0, 1, ..., size-1` in order. -/
theorem registry_inv_create (reg : Registry) (n : String)
    (h : reg.map Prod.snd = List.range reg.length) :
    (create_unique_gantt_resource reg n).map Prod.snd =
      List.range (create_unique_gantt_resource reg n).length := by
  rw [create_unique_eq]
  split
  · exact h
  · simp [h, List.range_succ]

/-- The serial-number invariant holds along any registration sequence. -/
theorem registry_inv_foldl (names : List String) :
    ∀ reg : Registry, reg.map Prod.snd = List.range reg.length →
      (names.foldl create_unique_gantt_resource reg).map Prod.snd =
        List.range (names.foldl create_unique_gantt_resource reg).length := by
  induction names with
  | nil => intro reg h; exact h
  | cons m rest ih =>
    intro reg h
    exact ih _ (registry_inv_create reg m h)

/-- A known name has a stored resource. -/
theorem get_of_known (reg : Registry) (n : String)
    (h : is_resource_known reg n = true) : ∃ i, reg.get n = some i := by
  unfold is_resource_known at h
  rw [List.any_eq_true] at h
  have hs : (reg.find? fun p => p.1 == n).isSome := List.find?_isSome.mpr h
  obtain ⟨q, hq⟩ := Option.isSome_iff_exists.mp hs
  exact ⟨q.2, by simp [Registry.get, hq]⟩

/-- What `Registry.get` returns was stored under that very name. -/
theorem get_mem (reg : Registry) (n : String) (i : Nat)
    (h : reg.get n = some i) : (n, i) ∈ reg := by
  unfold Registry.get at h
  cases hf : reg.find? (fun p => p.1 == n) with
  | none => rw [hf] at h; simp at h
  | some p =>
    rw [hf] at h
    simp only [Option.map_some', Option.some.injEq] at h
    have hp := List.find?_some hf
    have hmem := List.mem_of_find?_eq_some hf
    obtain ⟨p1, p2⟩ := p
    simp only at hp h
    have hp1 : p1 = n := eq_of_beq hp
    subst hp1
    subst h
    exact hmem

/-- Under the serial-number invariant, distinct names own distinct
resource identities. -/
theorem get_injective (reg : Registry)
    (hinv : reg.map Prod.snd = List.range reg.length)
    (n1 n2 : String) (i1 i2 : Nat) (h1 : reg.get n1 = some i1)
    (h2 : reg.get n2 = some i2) (hne : n1 ≠ n2) : i1 ≠ i2 := by
  intro hii
  subst hii
  have hm1 := get_mem reg n1 i1 h1
  have hm2 := get_mem reg n2 i1 h2
  have hnd : (reg.map Prod.snd).Nodup := by
    rw [hinv]; exact List.nodup_range _
  have heq := List.inj_on_of_nodup_map hnd hm1 hm2 rfl
  exact hne (congrArg Prod.fst heq)

/-- Every name in a successfully resolved lookup list received the
registry's stored resource for that name, and that resource is in the
returned list. -/
theorem lookupList_mem (reg : Registry) :
    ∀ (names : List String) (l : List Nat), lookupList reg names = some l →
      ∀ n ∈ names, ∃ i, reg.get n = some i ∧ i ∈ l := by
  intro names
  induction names with
  | nil => intro l _ n hn; cases hn
  | cons m rest ih =>
    intro l h n hn
    unfold lookupList at h
    cases hg : reg.get m with
    | none => rw [hg] at h; simp at h
    | some i =>
      rw [hg] at h
      cases hrest : lookupList reg rest with
      | none => rw [hrest] at h; simp at h
      | some l' =>
        rw [hrest] at h
        simp only [Option.map_some', Option.some.injEq] at h
        subst h
        rcases List.mem_cons.mp hn with rfl | hn'
        · exact ⟨i, hg, List.mem_cons_self _ _⟩
        · obtain ⟨j, hj, hjl⟩ := ih l' hrest n hn'
          exact ⟨j, hj, List.mem_cons_of_mem _ hjl⟩

/-- C5: within a single run the registry holds at most one resource object
per name: registering a name a second time is a no-op (so both
registrations yield the same identity); two different names registered in
a run map to two distinct identities; the registry knows exactly the set
of names ever registered; and every event referencing a name receives the
registry's one shared resource for it. -/
theorem c5_resource_registry :
    (∀ (reg : Registry) (n : String),
      create_unique_gantt_resource (create_unique_gantt_resource reg n) n =
        create_unique_gantt_resource reg n) ∧
    (∀ (names : List String) (n1 n2 : String),
      n1 ∈ names → n2 ∈ names → n1 ≠ n2 →
      ∃ i1 i2, (registerAll names).get n1 = some i1 ∧
        (registerAll names).get n2 = some i2 ∧ i1 ≠ i2) ∧
    (∀ (names : List String) (n : String),
      is_resource_known (registerAll names) n = true ↔ n ∈ names) ∧
    (∀ (reg : Registry) (e1 e2 : Event) (l1 l2 : List Nat) (n : String),
      retrieve_resources_for_event reg e1 = some l1 →
      retrieve_resources_for_event reg e2 = some l2 →
      n ∈ e1.room_cases ++ e1.audio_cases →
      n ∈ e2.room_cases ++ e2.audio_cases →
      ∃ i, reg.get n = some i ∧ i ∈ l1 ∧ i ∈ l2) := by
  refine ⟨?_, ?_, ?_, ?_⟩
  · intro reg n
    have h2 : is_resource_known (create_unique_gantt_resource reg n) n = true := by
      rw [known_create]; simp
    rw [create_unique_eq (create_unique_gantt_resource reg n) n, if_pos h2]
  · intro names n1 n2 h1 h2 hne
    obtain ⟨i1, hi1⟩ := get_of_known _ n1 ((known_registerAll names n1).mpr h1)
    obtain ⟨i2, hi2⟩ := get_of_known _ n2 ((known_registerAll names n2).mpr h2)
    have hinv := registry_inv_foldl names [] rfl
    exact ⟨i1, i2, hi1, hi2, get_injective _ hinv n1 n2 i1 i2 hi1 hi2 hne⟩
  · intro names n
    exact known_registerAll names n
  · intro reg e1 e2 l1 l2 n hr1 hr2 hn1 hn2
    obtain ⟨i, hgi, hil1⟩ := lookupList_mem reg _ l1 hr1 n hn1
    obtain ⟨j, hgj, hjl2⟩ := lookupList_mem reg _ l2 hr2 n hn2
    rw [hgi] at hgj
    have := Option.some.inj hgj
    subst this
    exact ⟨i, hgi, hil1, hjl2⟩

/-- Witness for C5: registering `["S3", "A1", "S3"]` creates exactly two
resources with distinct identities, the repeat registration being a
no-op. -/
theorem c5_resource_registry_witness :
    create_unique_gantt_resource (create_unique_gantt_resource [] "S3") "S3" =
      create_unique_gantt_resource [] "S3" ∧
    is_resource_known (registerAll ["S3", "A1", "S3"]) "A1" = true ∧
    (registerAll ["S3", "A1", "S3"]).get "S3" ≠
      (registerAll ["S3", "A1", "S3"]).get "A1" := by
  refine ⟨c5_resource_registry.1 [] "S3",
    (c5_resource_registry.2.2.1 ["S3", "A1", "S3"] "A1").mpr (by decide), ?_⟩
  obtain ⟨i1, i2, hi1, hi2, hne⟩ :=
    c5_resource_registry.2.1 ["S3", "A1", "S3"] "S3" "A1"
      (by decide) (by decide) (by decide)
  rw [hi1, hi2]
  simp only [ne_eq, Option.some.injEq]
  exact hne

end C3VOC
